import Mathlib

/-!
Shallow embedding of the `snowflake` Go package (teamlint/snowflake,
`snowflake.go`) and proofs about it.

Go's `int64` values are modelled as `Int` together with explicit wrapping
modulo `2^64` at every operation that can overflow; bitwise operations go
through the two's-complement representation as a `Nat` below `2^64`.
Go byte slices and strings (which are byte sequences) are modelled as
`List Nat` with entries below 256.  The wall clock, the environment
variables and the private-IP lookup are inputs of the model: each call to
the generator receives the clock readings it would observe, and `New`
receives the already-parsed environment values (`none` models an unset or
unparseable variable, exactly the cases where the Go code keeps the
previous value).
-/

/-- Two's-complement representation of a Go `int64`: the unique `Nat`
below `2^64` congruent to `x`.  (`Int.emod` is always nonnegative.) -/
def toUint64 (x : Int) : Nat := (x % (2 ^ 64 : Int)).toNat

/-- Interpret a `Nat` below `2^64` as a Go `int64` (two's complement). -/
def ofUint64 (n : Nat) : Int := if n < 2 ^ 63 then (n : Int) else (n : Int) - 2 ^ 64

/-- Wrap an unbounded integer into the `int64` range, as Go arithmetic does. -/
def wrap64 (x : Int) : Int := ofUint64 (toUint64 x)

/-- Go `int64` bitwise AND. -/
def land64 (x y : Int) : Int := ofUint64 (Nat.land (toUint64 x) (toUint64 y))

/-- Go `int64` bitwise OR. -/
def lor64 (x y : Int) : Int := ofUint64 (Nat.lor (toUint64 x) (toUint64 y))

/-- Go `int64` bitwise XOR (Go's binary `^`). -/
def lxor64 (x y : Int) : Int := ofUint64 (Nat.xor (toUint64 x) (toUint64 y))

/-- Go `int64` left shift `x << n`: multiply and wrap (shift counts may
exceed 63, giving 0). -/
def shl64 (x : Int) (n : Nat) : Int := wrap64 (x * 2 ^ n)

/-- Go `int64` arithmetic right shift `x >> n`, i.e. floor division by `2^n`
(`Int./` is Euclidean division, which is floor division for a positive
divisor). -/
def shr64 (x : Int) (n : Nat) : Int := x / 2 ^ n

/-- The distinct error values the package can produce.  `jsonSyntax`
carries the offending bytes exactly as `JSONSyntaxError{original}` does;
`parseSyntaxErr`/`parseRangeErr` model `strconv.ErrSyntax`/`ErrRange`;
`corruptBase64` models `base64.CorruptInputError`. -/
inductive GoError where
  | layoutTooWide : GoError
  | epochInFuture : GoError
  | nodeOutOfRange : GoError
  | invalidBase32 : GoError
  | invalidBase58 : GoError
  | parseSyntaxErr : GoError
  | parseRangeErr : GoError
  | corruptBase64 : GoError
  | jsonSyntax : List Nat → GoError
deriving DecidableEq

/-- `DefaultStartTime int64 = 1288834974657`. -/
def DefaultStartTime : Int := 1288834974657

/-- `DefaultNodeBits uint8 = 10`. -/
def DefaultNodeBits : Nat := 10

/-- `DefaultSeqBits uint8 = 12`. -/
def DefaultSeqBits : Nat := 12

/-- `MaxNotTimeBits uint8 = 22`. -/
def MaxNotTimeBits : Nat := 22

/-- The `Options` struct.  The two bit-width fields are Go `uint8` values,
so they always lie below 256. -/
structure Options where
  startTime : Int
  node : Int
  nodeBits : Nat
  seqBits : Nat
deriving DecidableEq

/-- `defaultOptions()`: default start time and bit widths, node 0. -/
def defaultOptions : Options :=
  { startTime := DefaultStartTime, node := 0, nodeBits := DefaultNodeBits, seqBits := DefaultSeqBits }

/-- The functional-option type `Option func(*Options)` (named `OptionF`
here because `Option` is taken in Lean). -/
def OptionF : Type := Options → Options

/-- The `Node(node int64)` option. -/
def Node (node : Int) : OptionF := fun o => { o with node := node }

/-- The `StartTime(startTime int64)` option. -/
def StartTime (startTime : Int) : OptionF := fun o => { o with startTime := startTime }

/-- The `NodeBits(nodeBits uint8)` option; the argument is a `uint8`,
modelled by reducing modulo 256. -/
def NodeBits (nodeBits : Nat) : OptionF := fun o => { o with nodeBits := nodeBits % 256 }

/-- The `SeqBits(seqBits uint8)` option; the argument is a `uint8`,
modelled by reducing modulo 256. -/
def SeqBits (seqBits : Nat) : OptionF := fun o => { o with seqBits := seqBits % 256 }

/-- The external inputs `New` may consult: the parsed values of the four
environment variables (`none` = unset or failing to parse, in which case
the Go code keeps the prior value) and the host's private-IPv4-derived
integer used by `ip2Node` (`none` = no private address found).  Parsed
`uint8` environment values are below 256 by construction; the model
reduces them modulo 256, the identity on such values. -/
structure ExtEnv where
  envStartTime : Option Int
  envNodeBits : Option Nat
  envSeqBits : Option Nat
  envNode : Option Int
  ipNode : Option Int

/-- An environment with nothing set and no private IP. -/
def emptyEnv : ExtEnv :=
  { envStartTime := none, envNodeBits := none, envSeqBits := none, envNode := none, ipNode := none }

/-- The `Snowflake` struct (the mutex is not part of the sequential model).
`time`/`seq` are the mutable generator state; the masks are cached by
`initBits`. -/
structure Snowflake where
  opts : Options
  time : Int
  node : Int
  seq : Int
  nodeMax : Int
  nodeMask : Int
  seqMask : Int
deriving DecidableEq

/-- `initBits`: resolve zero bit widths from the environment, then cache
`nodeMax = -1 ^ (-1 << nodeBits)`, `nodeMask = nodeMax << seqBits`,
`seqMask = -1 ^ (-1 << seqBits)`.  Returns the resolved options plus the
three masks. -/
def initBits (o : Options) (ext : ExtEnv) : Options × Int × Int × Int :=
  let nb := if o.nodeBits = 0 then (match ext.envNodeBits with | some v => v % 256 | none => 0)
            else o.nodeBits
  let sb := if o.seqBits = 0 then (match ext.envSeqBits with | some v => v % 256 | none => 0)
            else o.seqBits
  let nodeMax := lxor64 (-1) (shl64 (-1) nb)
  let nodeMask := shl64 nodeMax sb
  let seqMask := lxor64 (-1) (shl64 (-1) sb)
  ({ o with nodeBits := nb, seqBits := sb }, nodeMax, nodeMask, seqMask)

/-- `Snowflake.NotTimeBits() = nodeBits + seqBits` as a `uint8` sum, hence
modulo 256. -/
def NotTimeBits (o : Options) : Nat := (o.nodeBits + o.seqBits) % 256

/-- `initStartTime`: a zero start time is resolved from the environment. -/
def initStartTime (o : Options) (ext : ExtEnv) : Options :=
  if o.startTime = 0 then
    { o with startTime := match ext.envStartTime with | some v => v | none => 0 }
  else o

/-- `initNode`: an explicit (nonzero) node is kept; a zero node falls back
to the environment variable masked by `nodeMax`, then to the private-IP
value masked by `nodeMax` (`ip2Node`), then stays 0. -/
def initNode (o : Options) (ext : ExtEnv) (nodeMax : Int) : Int :=
  if o.node = 0 then
    match ext.envNode with
    | some v => land64 v nodeMax
    | none =>
      match ext.ipNode with
      | some ip => land64 ip nodeMax
      | none => 0
  else o.node

/-- `New(opts ...Option)`: apply the options to the defaults, resolve bits
and masks, and run the three validations in source order (bit-width sum,
start time not in the future, node in range).  `nowMs` is the wall-clock
reading `epoch(time.Now())` used by `elapsedTime()`, whose subtraction
`epoch(time.Now()) - startTime` is `int64` arithmetic and hence wraps. -/
def New (opts : List OptionF) (ext : ExtEnv) (nowMs : Int) : Except GoError Snowflake :=
  let options := opts.foldl (fun o f => f o) defaultOptions
  let (o1, nodeMax, nodeMask, seqMask) := initBits options ext
  if NotTimeBits o1 > MaxNotTimeBits then .error .layoutTooWide
  else
    let o2 := initStartTime o1 ext
    if wrap64 (nowMs - o2.startTime) < 0 then .error .epochInFuture
    else
      let node := initNode o2 ext nodeMax
      if node < 0 ∨ node > nodeMax then .error .nodeOutOfRange
      else .ok { opts := o2, time := 0, node := node, seq := 0,
                 nodeMax := nodeMax, nodeMask := nodeMask, seqMask := seqMask }

/-- The spin loop `for sf.time > elapsedTime { elapsedTime = sf.elapsedTime() }`
inside `Snowflake.ID`: while the stored time still exceeds the current
reading, take the next reading from the supplied future readings.  (An
exhausted supply returns the last reading; the loop is in fact never
entered, since `ID` only reaches it when `sf.time == elapsedTime`.) -/
def spinWait (time : Int) : Int → List Int → Int
  | elapsed, [] => elapsed
  | elapsed, e :: es => if time > elapsed then spinWait time e es else elapsed

/-- The ID assembly
`sf.time<<(sf.opts.nodeBits+sf.opts.seqBits) | sf.node<<sf.opts.seqBits | sf.seq`;
the shift count `nodeBits + seqBits` is a `uint8` sum, hence modulo 256. -/
def assembleID (nodeBits seqBits : Nat) (node time seq : Int) : Int :=
  lor64 (lor64 (shl64 time ((nodeBits + seqBits) % 256)) (shl64 node seqBits)) seq

/-- One call of `Snowflake.ID()`.  `elapsed` is the reading
`sf.elapsedTime()` taken at the top of the call; `future` are the readings
the spin loop would observe if it ran.  Returns the updated generator and
the produced ID. -/
def IDCall (sf : Snowflake) (elapsed : Int) (future : List Int) : Snowflake × Int :=
  let (seq, elapsed2) :=
    if sf.time = elapsed then
      let s := land64 (sf.seq + 1) sf.seqMask
      (s, if s = 0 then spinWait sf.time elapsed future else elapsed)
    else ((0 : Int), elapsed)
  let time := elapsed2
  let id := assembleID sf.opts.nodeBits sf.opts.seqBits sf.node time seq
  ({ sf with time := time, seq := seq }, id)

/-- Run a sequence of `ID()` calls; each call is given its clock reading
and the readings available to its spin loop. -/
def runIDs (sf : Snowflake) : List (Int × List Int) → List Int
  | [] => []
  | (e, fut) :: rest =>
    let r := IDCall sf e fut
    r.2 :: runIDs r.1 rest

/-- Build a generator with `New` and run a sequence of `ID()` calls
(`none` when construction fails). -/
def runNew (opts : List OptionF) (ext : ExtEnv) (nowMs : Int)
    (calls : List (Int × List Int)) : Option (List Int) :=
  match New opts ext nowMs with
  | .error _ => none
  | .ok sf => some (runIDs sf calls)

/-- `ID.Time(opts ...Option)`: `(int64(f) >> (nodeBits+seqBits)) + startTime`
with the configuration built from the options (the shift count is a
`uint8` sum, and the final addition is `int64` arithmetic, hence
wrapped). -/
def IDTime (opts : List OptionF) (f : Int) : Int :=
  let options := opts.foldl (fun o g => g o) defaultOptions
  wrap64 (shr64 f ((options.nodeBits + options.seqBits) % 256) + options.startTime)

/-- `ID.Node(opts ...Option)`:
`int64(f) & int64(nodeMask) >> seqBits` where
`nodeMax = -1 ^ (-1 << nodeBits)` and `nodeMask = nodeMax << seqBits`
(in Go, `&` and `>>` share precedence and associate left). -/
def IDNode (opts : List OptionF) (f : Int) : Int :=
  let options := opts.foldl (fun o g => g o) defaultOptions
  let nodeMax := lxor64 (-1) (shl64 (-1) options.nodeBits)
  let nodeMask := shl64 nodeMax options.seqBits
  shr64 (land64 f nodeMask) options.seqBits

/-- `ID.Seq(opts ...Option)`: `int64(f) & seqMask` with
`seqMask = -1 ^ (-1 << seqBits)`. -/
def IDSeq (opts : List OptionF) (f : Int) : Int :=
  let options := opts.foldl (fun o g => g o) defaultOptions
  land64 f (lxor64 (-1) (shl64 (-1) options.seqBits))

deriving instance DecidableEq for Except

/-- The big-endian digit list of `n` in base `b` (at least one digit),
written with an explicit fuel argument so that it is structurally
recursive; `natDigitsBE` supplies fuel `n`, which always suffices. -/
def natDigitsBEAux (b : Nat) : Nat → Nat → List Nat
  | 0, n => [n]
  | fuel + 1, n => if n < b then [n] else natDigitsBEAux b fuel (n / b) ++ [n % b]

/-- The big-endian digit list of `n` in base `b` (for `b ≥ 2`). -/
def natDigitsBE (b n : Nat) : List Nat := natDigitsBEAux b n n

/-- Go `strconv`'s digit characters `0123456789abcdefghijklmnopqrstuvwxyz`,
as a function from digit value to ASCII byte. -/
def digitByte (d : Nat) : Nat := if d < 10 then 48 + d else 87 + d

/-- `strconv.FormatInt(i, base)` as a byte sequence: the base-`base`
digits of the absolute value, with a leading `'-'` (byte 45) when
negative. -/
def FormatInt (base : Nat) (i : Int) : List Nat :=
  if i < 0 then 45 :: (natDigitsBE base (-i).toNat).map digitByte
  else (natDigitsBE base i.toNat).map digitByte

/-- The digit value of a byte in `strconv.ParseUint`: `'0'..'9'`,
`'a'..'z'`, `'A'..'Z'`; anything else is a syntax error. -/
def digitVal (c : Nat) : Option Nat :=
  if 48 ≤ c ∧ c ≤ 57 then some (c - 48)
  else if 97 ≤ c ∧ c ≤ 122 then some (c - 97 + 10)
  else if 65 ≤ c ∧ c ≤ 90 then some (c - 65 + 10)
  else none

/-- The digit loop of `strconv.ParseUint(s, base, 64)` with
`maxVal = 2^64 - 1` and `cutoff = maxVal/base + 1`: each step rejects
non-digits and digits at or above the base as syntax errors, and detects
overflow before and after `n = n*base + d`. -/
def parseUintLoop (base maxVal : Nat) : Nat → List Nat → Except GoError Nat
  | acc, [] => .ok acc
  | acc, c :: cs =>
    match digitVal c with
    | none => .error .parseSyntaxErr
    | some d =>
      if d ≥ base then .error .parseSyntaxErr
      else if acc ≥ maxVal / base + 1 then .error .parseRangeErr
      else if acc * base + d > maxVal then .error .parseRangeErr
      else parseUintLoop base maxVal (acc * base + d) cs

/-- `strconv.ParseUint(s, base, 64)` for a fixed valid base: empty input
is a syntax error, otherwise run the digit loop from 0. -/
def ParseUintGo (base maxVal : Nat) (s : List Nat) : Except GoError Nat :=
  if s = [] then .error .parseSyntaxErr else parseUintLoop base maxVal 0 s

/-- `strconv.ParseInt(s, base, 64)` for a fixed valid base: strip an
optional sign (bytes 43 `'+'` / 45 `'-'`), parse the rest as unsigned
with `maxVal = 2^64 - 1`, then range-check against `cutoff = 2^63`. -/
def ParseIntGo (base : Nat) (s : List Nat) : Except GoError Int :=
  match s with
  | [] => .error .parseSyntaxErr
  | c :: rest =>
    let neg := c = 45
    let digits := if c = 43 ∨ c = 45 then rest else s
    match ParseUintGo base (2 ^ 64 - 1) digits with
    | .error e => .error e
    | .ok un =>
      if ¬neg ∧ un ≥ 2 ^ 63 then .error .parseRangeErr
      else if neg ∧ un > 2 ^ 63 then .error .parseRangeErr
      else .ok (if neg then -(un : Int) else (un : Int))

/-- `ParseInt64`: the identity conversion `ID(id)`. -/
def ParseInt64 (id : Int) : Int := id

/-- `ParseString`: `strconv.ParseInt(id, 10, 64)`. -/
def ParseString (s : List Nat) : Except GoError Int := ParseIntGo 10 s

/-- `ParseBase2`: `strconv.ParseInt(id, 2, 64)`. -/
def ParseBase2 (s : List Nat) : Except GoError Int := ParseIntGo 2 s

/-- `ParseBase36`: `strconv.ParseInt(id, 36, 64)`. -/
def ParseBase36 (s : List Nat) : Except GoError Int := ParseIntGo 36 s

/-- `ParseBytes`: `strconv.ParseInt(string(id), 10, 64)`. -/
def ParseBytes (s : List Nat) : Except GoError Int := ParseIntGo 10 s

/-- `ID.String()`: `strconv.FormatInt(int64(f), 10)`. -/
def IDString (f : Int) : List Nat := FormatInt 10 f

/-- `ID.Base2()`: `strconv.FormatInt(int64(f), 2)`. -/
def IDBase2 (f : Int) : List Nat := FormatInt 2 f

/-- `ID.Base36()`: `strconv.FormatInt(int64(f), 36)`. -/
def IDBase36 (f : Int) : List Nat := FormatInt 36 f

/-- `ID.Bytes()`: the bytes of `ID.String()`. -/
def IDBytes (f : Int) : List Nat := IDString f

/-- `ID.Int64()`. -/
def IDInt64 (f : Int) : Int := f

/-- The byte values of the custom Base32 alphabet
`ybndrfg8ejkmcpqxot1uwisza345h769` (`encodeBase32Map`). -/
def encodeBase32Map : List Nat :=
  "ybndrfg8ejkmcpqxot1uwisza345h769".data.map Char.toNat

/-- The byte values of the custom Base58 alphabet
`123456789abcdefghijkmnopqrstuvwxyzABCDEFGHJKLMNPQRSTUVWXYZ`
(`encodeBase58Map`). -/
def encodeBase58Map : List Nat :=
  "123456789abcdefghijkmnopqrstuvwxyzABCDEFGHJKLMNPQRSTUVWXYZ".data.map Char.toNat

/-- The 256-entry decode table built by `init()` from an alphabet: start
from the zero array, set entries `0 ..= len-1` to `0xFF`, then set the
entry of each alphabet byte to its index.  Note both loops run to
`len(alphabet)`, not 256. -/
def buildDecodeMap (alphabet : List Nat) : List Nat :=
  let a := (List.range alphabet.length).foldl (fun m i => m.set i 0xFF) (List.replicate 256 0)
  (List.range alphabet.length).foldl (fun m i => m.set (alphabet.getD i 0) i) a

/-- `decodeBase32Map`, as built by `init()`. -/
def decodeBase32Map : List Nat := buildDecodeMap encodeBase32Map

/-- `decodeBase58Map`, as built by `init()`. -/
def decodeBase58Map : List Nat := buildDecodeMap encodeBase58Map

/-- The loop of `ParseBase32`: reject a byte whose table entry is `0xFF`,
otherwise `id = id*32 + value` (Go `int64` arithmetic, hence wrapped). -/
def parseBase32Loop : Int → List Nat → Except GoError Int
  | id, [] => .ok id
  | id, c :: cs =>
    if decodeBase32Map.getD c 0 = 0xFF then .error .invalidBase32
    else parseBase32Loop (wrap64 (id * 32 + (decodeBase32Map.getD c 0 : Int))) cs

/-- `ParseBase32(b []byte)`. -/
def ParseBase32 (b : List Nat) : Except GoError Int := parseBase32Loop 0 b

/-- The loop of `ParseBase58`, like `parseBase32Loop` with `id*58`. -/
def parseBase58Loop : Int → List Nat → Except GoError Int
  | id, [] => .ok id
  | id, c :: cs =>
    if decodeBase58Map.getD c 0 = 0xFF then .error .invalidBase58
    else parseBase58Loop (wrap64 (id * 58 + (decodeBase58Map.getD c 0 : Int))) cs

/-- `ParseBase58(b []byte)`. -/
def ParseBase58 (b : List Nat) : Except GoError Int := parseBase58Loop 0 b

/-- The digit-collecting loop of `ID.Base32()`: append `f % 32` digits
(little-endian) while `f >= 32`, then the final digit.  Fuel-based for
structural recursion; fuel `f` suffices. -/
def base32LEAux : Nat → Nat → List Nat
  | 0, f => [encodeBase32Map.getD f 0]
  | fuel + 1, f =>
    if f < 32 then [encodeBase32Map.getD f 0]
    else encodeBase32Map.getD (f % 32) 0 :: base32LEAux fuel (f / 32)

/-- `ID.Base32()`: a single alphabet byte for `f < 32`, otherwise the
collected little-endian digits reversed into big-endian order. -/
def IDBase32 (f : Int) : List Nat :=
  if f < 32 then [encodeBase32Map.getD f.toNat 0]
  else (base32LEAux f.toNat f.toNat).reverse

/-- The digit-collecting loop of `ID.Base58()` (fuel-based). -/
def base58LEAux : Nat → Nat → List Nat
  | 0, f => [encodeBase58Map.getD f 0]
  | fuel + 1, f =>
    if f < 58 then [encodeBase58Map.getD f 0]
    else encodeBase58Map.getD (f % 58) 0 :: base58LEAux fuel (f / 58)

/-- `ID.Base58()`. -/
def IDBase58 (f : Int) : List Nat :=
  if f < 58 then [encodeBase58Map.getD f.toNat 0]
  else (base58LEAux f.toNat f.toNat).reverse

/-- The standard Base64 alphabet `A..Za..z0..9+/` as digit value to byte. -/
def b64Byte (d : Nat) : Nat :=
  if d < 26 then 65 + d
  else if d < 52 then 97 + (d - 26)
  else if d < 62 then 48 + (d - 52)
  else if d = 62 then 43
  else 47

/-- The inverse table of the standard Base64 alphabet (`none` for bytes
outside it, including the padding byte `'='` = 61). -/
def b64Val (c : Nat) : Option Nat :=
  if 65 ≤ c ∧ c ≤ 90 then some (c - 65)
  else if 97 ≤ c ∧ c ≤ 122 then some (c - 97 + 26)
  else if 48 ≤ c ∧ c ≤ 57 then some (c - 48 + 52)
  else if c = 43 then some 62
  else if c = 47 then some 63
  else none

/-- `base64.StdEncoding.EncodeToString`: 3 bytes to 4 alphabet bytes, a
2-byte tail to 3 alphabet bytes plus `'='`, a 1-byte tail to 2 alphabet
bytes plus `'=='`. -/
def b64encode : List Nat → List Nat
  | a :: b :: c :: rest =>
    b64Byte (a / 4) :: b64Byte (a % 4 * 16 + b / 16) ::
      b64Byte (b % 16 * 4 + c / 64) :: b64Byte (c % 64) :: b64encode rest
  | [a, b] => [b64Byte (a / 4), b64Byte (a % 4 * 16 + b / 16), b64Byte (b % 16 * 4), 61]
  | [a] => [b64Byte (a / 4), b64Byte (a % 4 * 16), 61, 61]
  | [] => []

/-- `base64.StdEncoding.DecodeString`: groups of 4, padding only in a
final group, anything else a corrupt-input error. -/
def b64decode : List Nat → Except GoError (List Nat)
  | [] => .ok []
  | c1 :: c2 :: c3 :: c4 :: rest =>
    match b64Val c1, b64Val c2 with
    | some d1, some d2 =>
      if c3 = 61 then
        if c4 = 61 ∧ rest = [] then .ok [d1 * 4 + d2 / 16]
        else .error .corruptBase64
      else
        match b64Val c3 with
        | some d3 =>
          if c4 = 61 then
            if rest = [] then .ok [d1 * 4 + d2 / 16, d2 % 16 * 16 + d3 / 4]
            else .error .corruptBase64
          else
            match b64Val c4 with
            | some d4 =>
              match b64decode rest with
              | .ok tl => .ok ((d1 * 4 + d2 / 16) :: (d2 % 16 * 16 + d3 / 4) ::
                  (d3 % 4 * 64 + d4) :: tl)
              | .error e => .error e
            | none => .error .corruptBase64
        | none => .error .corruptBase64
    | _, _ => .error .corruptBase64
  | _ => .error .corruptBase64

/-- `ID.Base64()`: the standard Base64 encoding of `ID.Bytes()`. -/
def IDBase64 (f : Int) : List Nat := b64encode (IDBytes f)

/-- `ParseBase64`: decode, propagating a decode error, then `ParseBytes`. -/
def ParseBase64 (s : List Nat) : Except GoError Int :=
  match b64decode s with
  | .error e => .error e
  | .ok b => ParseBytes b

/-- `ID.IntBytes()`: the 8 big-endian bytes of `uint64(f)`
(`binary.BigEndian.PutUint64`). -/
def IDIntBytes (f : Int) : List Nat :=
  let u := toUint64 f
  [u / 2 ^ 56 % 256, u / 2 ^ 48 % 256, u / 2 ^ 40 % 256, u / 2 ^ 32 % 256,
   u / 2 ^ 24 % 256, u / 2 ^ 16 % 256, u / 2 ^ 8 % 256, u % 256]

/-- `ParseIntBytes`: `int64(binary.BigEndian.Uint64(id[:]))`, the
big-endian byte fold reinterpreted as `int64`. -/
def ParseIntBytes (b : List Nat) : Int :=
  ofUint64 (b.foldl (fun a x => a * 256 + x) 0)

/-- `ID.MarshalJSON()`: `'"'`, the decimal digits, `'"'` (byte 34 is the
quote character). -/
def MarshalJSON (f : Int) : List Nat := 34 :: FormatInt 10 f ++ [34]

/-- `ID.UnmarshalJSON(b)`: inputs shorter than 3 bytes or not starting
and ending with a quote give `JSONSyntaxError{b}`; otherwise
`strconv.ParseInt` on the bytes between the quotes. -/
def UnmarshalJSON (b : List Nat) : Except GoError Int :=
  if b.length < 3 ∨ b.headD 0 ≠ 34 ∨ b.getLastD 0 ≠ 34 then .error (.jsonSyntax b)
  else ParseIntGo 10 (b.drop 1).dropLast

/-- The value of a big-endian digit list in base `b`, folded onto an
accumulator (the accumulation both `parseUintLoop` and the Base32/58
parse loops perform). -/
def ofDigitsBE (b acc : Nat) (ds : List Nat) : Nat := ds.foldl (fun a d => a * b + d) acc

/-- `ofDigitsBE` with a Go `int64` accumulator. -/
def ofDigitsBEInt (b : Nat) (acc : Int) (ds : List Nat) : Int :=
  ds.foldl (fun a d => a * b + d) acc

/-! ### Arithmetic facts about the `int64` model -/

theorem ofUint64_of_lt {n : Nat} (h : n < 2 ^ 63) : ofUint64 n = (n : Int) := by
  simp only [ofUint64, if_pos h]

theorem toUint64_eq_toNat {x : Int} (h0 : 0 ≤ x) (h1 : x < 2 ^ 64) : toUint64 x = x.toNat := by
  unfold toUint64
  rw [Int.emod_eq_of_lt h0 (by exact_mod_cast h1)]

theorem wrap64_eq_of_lt {x : Int} (h0 : 0 ≤ x) (h1 : x < 2 ^ 63) : wrap64 x = x := by
  unfold wrap64
  rw [toUint64_eq_toNat h0 (by omega), ofUint64_of_lt (by omega), Int.toNat_of_nonneg h0]

theorem shl64_eq_of_lt {x : Int} {n : Nat} (h0 : 0 ≤ x) (h1 : x * 2 ^ n < 2 ^ 63) :
    shl64 x n = x * 2 ^ n := by
  unfold shl64
  exact wrap64_eq_of_lt (by positivity) h1

theorem lor64_eq_nat {x y : Int} (hx0 : 0 ≤ x) (hx1 : x < 2 ^ 63) (hy0 : 0 ≤ y)
    (hy1 : y < 2 ^ 63) : lor64 x y = ((x.toNat ||| y.toNat : Nat) : Int) := by
  unfold lor64
  rw [toUint64_eq_toNat hx0 (by omega), toUint64_eq_toNat hy0 (by omega)]
  refine ofUint64_of_lt ?_
  have hx : x.toNat < 2 ^ 63 := by omega
  have hy : y.toNat < 2 ^ 63 := by omega
  exact Nat.or_lt_two_pow hx hy

theorem land64_eq_nat {x y : Int} (hx0 : 0 ≤ x) (hx1 : x < 2 ^ 63) (hy0 : 0 ≤ y)
    (hy1 : y < 2 ^ 63) : land64 x y = ((x.toNat &&& y.toNat : Nat) : Int) := by
  unfold land64
  rw [toUint64_eq_toNat hx0 (by omega), toUint64_eq_toNat hy0 (by omega)]
  refine ofUint64_of_lt ?_
  calc x.toNat &&& y.toNat ≤ x.toNat := Nat.and_le_left
    _ < 2 ^ 63 := by omega

/-! ### Bit-level facts about `Nat` used to decode packed fields -/

theorem testBit_two_pow_mul_add_low {k a b i : Nat} (hi : i < k) :
    (2 ^ k * a + b).testBit i = b.testBit i := by
  rw [Nat.testBit_to_div_mod, Nat.testBit_to_div_mod]
  have hik : (2 : Nat) ^ k = 2 ^ i * 2 ^ (k - i) := by
    rw [← pow_add]
    congr 1
    omega
  have hsplit : (2 ^ k * a + b) / 2 ^ i = b / 2 ^ i + 2 ^ (k - i) * a := by
    rw [hik, Nat.mul_assoc, Nat.add_comm, Nat.add_mul_div_left _ _ (by positivity)]
  have h2 : b / 2 ^ i + 2 ^ (k - i) * a = b / 2 ^ i + 2 ^ (k - i - 1) * a * 2 := by
    have h3 : (2 : Nat) ^ (k - i) = 2 ^ (k - i - 1) * 2 := by
      rw [← pow_succ]
      congr 1
      omega
    rw [h3]
    ring
  rw [hsplit, h2, Nat.add_mul_mod_self_right]

theorem testBit_two_pow_mul_add_high {k a b i : Nat} (hb : b < 2 ^ k) (hi : k ≤ i) :
    (2 ^ k * a + b).testBit i = a.testBit (i - k) := by
  rw [Nat.testBit_to_div_mod, Nat.testBit_to_div_mod]
  have h1 : (2 ^ k * a + b) / 2 ^ i = a / 2 ^ (i - k) := by
    have : (2 ^ i : Nat) = 2 ^ k * 2 ^ (i - k) := by
      rw [← Nat.pow_add]
      congr 1
      omega
    rw [this, ← Nat.div_div_eq_div_mul, Nat.add_comm,
      Nat.add_mul_div_left _ _ (Nat.pos_pow_of_pos k (by norm_num)),
      Nat.div_eq_of_lt hb, Nat.zero_add]
  rw [h1]

theorem two_pow_mul_testBit {t a i : Nat} :
    (2 ^ t * a).testBit i = (decide (t ≤ i) && a.testBit (i - t)) := by
  rw [Nat.mul_comm, ← Nat.shiftLeft_eq, Nat.testBit_shiftLeft]

theorem lor_two_pow_mul_add {t a b : Nat} (hb : b < 2 ^ t) :
    2 ^ t * a ||| b = 2 ^ t * a + b :=
  (Nat.mul_add_lt_is_or hb a).symm

theorem land_middle_mask {k m a b : Nat} (hb : b < 2 ^ k) :
    (2 ^ k * a + b) &&& (2 ^ m - 1) * 2 ^ k = a % 2 ^ m * 2 ^ k := by
  refine Nat.eq_of_testBit_eq fun i => ?_
  rw [Nat.testBit_and]
  rcases Nat.lt_or_ge i k with hi | hi
  · have h1 : ((2 ^ m - 1) * 2 ^ k).testBit i = false := by
      rw [Nat.mul_comm, two_pow_mul_testBit]
      simp [Nat.not_le.mpr hi]
    have h2 : (a % 2 ^ m * 2 ^ k).testBit i = false := by
      rw [Nat.mul_comm, two_pow_mul_testBit]
      simp [Nat.not_le.mpr hi]
    simp [h1, h2]
  · rw [testBit_two_pow_mul_add_high hb hi]
    rw [Nat.mul_comm (2 ^ m - 1), Nat.mul_comm (a % 2 ^ m), two_pow_mul_testBit,
      two_pow_mul_testBit, Nat.testBit_two_pow_sub_one, Nat.testBit_mod_two_pow]
    simp [hi]
    rw [Bool.and_comm]

/-! ### Digit lists -/

theorem natDigitsBEAux_congr {b : Nat} (hb : 2 ≤ b) :
    ∀ f1 f2 n, n ≤ f1 → n ≤ f2 → natDigitsBEAux b f1 n = natDigitsBEAux b f2 n := by
  intro f1
  induction f1 with
  | zero =>
    intro f2 n h1 h2
    have hn : n = 0 := by omega
    subst hn
    cases f2 with
    | zero => rfl
    | succ f2 => simp [natDigitsBEAux, show 0 < b by omega]
  | succ f1 ih =>
    intro f2 n h1 h2
    cases f2 with
    | zero =>
      have hn : n = 0 := by omega
      subst hn
      simp [natDigitsBEAux, show 0 < b by omega]
    | succ f2 =>
      simp only [natDigitsBEAux]
      by_cases hnb : n < b
      · simp [hnb]
      · simp only [hnb, if_false]
        have hdiv : n / b < n := Nat.div_lt_self (by omega) hb
        rw [ih f2 (n / b) (by omega) (by omega)]

theorem natDigitsBE_eq {b : Nat} (hb : 2 ≤ b) (n : Nat) :
    natDigitsBE b n = if n < b then [n] else natDigitsBE b (n / b) ++ [n % b] := by
  unfold natDigitsBE
  cases n with
  | zero => simp [natDigitsBEAux, show 0 < b by omega]
  | succ m =>
    simp only [natDigitsBEAux]
    by_cases hnb : m + 1 < b
    · simp [hnb]
    · simp only [hnb, if_false]
      have hdiv : (m + 1) / b < m + 1 := Nat.div_lt_self (by omega) hb
      rw [natDigitsBEAux_congr hb m ((m + 1) / b) ((m + 1) / b) (by omega) le_rfl]

theorem natDigitsBE_ne_nil {b : Nat} (hb : 2 ≤ b) (n : Nat) : natDigitsBE b n ≠ [] := by
  rw [natDigitsBE_eq hb]
  by_cases h : n < b <;> simp [h]

theorem natDigitsBE_lt {b : Nat} (hb : 2 ≤ b) (n : Nat) :
    ∀ d ∈ natDigitsBE b n, d < b := by
  induction n using Nat.strong_induction_on with
  | _ n ih =>
    rw [natDigitsBE_eq hb]
    by_cases h : n < b
    · simp [h]
    · simp only [h, if_false]
      intro d hd
      rcases List.mem_append.mp hd with hd | hd
      · exact ih (n / b) (Nat.div_lt_self (by omega) hb) d hd
      · simp at hd
        subst hd
        exact Nat.mod_lt _ (by omega)

theorem ofDigitsBE_append (b acc : Nat) (l1 l2 : List Nat) :
    ofDigitsBE b acc (l1 ++ l2) = ofDigitsBE b (ofDigitsBE b acc l1) l2 := by
  unfold ofDigitsBE
  rw [List.foldl_append]

theorem ofDigitsBE_natDigitsBE {b : Nat} (hb : 2 ≤ b) (n : Nat) :
    ofDigitsBE b 0 (natDigitsBE b n) = n := by
  induction n using Nat.strong_induction_on with
  | _ n ih =>
    rw [natDigitsBE_eq hb]
    by_cases h : n < b
    · simp [h, ofDigitsBE]
    · simp only [h, if_false]
      rw [ofDigitsBE_append, ih (n / b) (Nat.div_lt_self (by omega) hb)]
      show ofDigitsBE b _ [_] = n
      unfold ofDigitsBE
      simp only [List.foldl_cons, List.foldl_nil]
      rw [Nat.mul_comm]
      exact Nat.div_add_mod n b

theorem le_ofDigitsBE {b : Nat} (hb : 1 ≤ b) (acc : Nat) (ds : List Nat) :
    acc ≤ ofDigitsBE b acc ds := by
  induction ds generalizing acc with
  | nil => simp [ofDigitsBE]
  | cons d tl ih =>
    show acc ≤ ofDigitsBE b (acc * b + d) tl
    calc acc ≤ acc * b + d := by nlinarith
      _ ≤ ofDigitsBE b (acc * b + d) tl := ih _

/-! ### strconv format/parse -/

theorem digitVal_digitByte : ∀ d : Nat, d < 36 → digitVal (digitByte d) = some d := by decide

theorem digitByte_ne_plus : ∀ d : Nat, d < 36 → digitByte d ≠ 43 := by decide

theorem digitByte_ne_minus : ∀ d : Nat, d < 36 → digitByte d ≠ 45 := by decide

theorem parseUintLoop_ok {base : Nat} (maxVal : Nat) (hb : 2 ≤ base) (hb36 : base ≤ 36) :
    ∀ (ds : List Nat) (acc : Nat), (∀ d ∈ ds, d < base) →
      ofDigitsBE base acc ds ≤ maxVal →
      parseUintLoop base maxVal acc (ds.map digitByte) = .ok (ofDigitsBE base acc ds) := by
  intro ds
  induction ds with
  | nil => intro acc _ _; rfl
  | cons d tl ih =>
    intro acc hds hle
    have hd : d < base := hds d (List.mem_cons_self d tl)
    have hstep : ofDigitsBE base acc (d :: tl) = ofDigitsBE base (acc * base + d) tl := rfl
    rw [hstep] at hle ⊢
    have hmono : acc * base + d ≤ maxVal :=
      le_trans (le_ofDigitsBE (by omega) _ _) hle
    have hcut : ¬ acc ≥ maxVal / base + 1 := by
      have h2 : acc ≤ maxVal / base := (Nat.le_div_iff_mul_le (by omega)).mpr (by omega)
      omega
    simp only [List.map_cons, parseUintLoop, digitVal_digitByte d (by omega)]
    rw [if_neg (by omega : ¬ d ≥ base), if_neg hcut, if_neg (by omega : ¬ acc * base + d > maxVal)]
    exact ih (acc * base + d) (fun x hx => hds x (List.mem_cons_of_mem d hx)) hle

theorem FormatInt_of_nonneg {base : Nat} {i : Int} (h : 0 ≤ i) :
    FormatInt base i = (natDigitsBE base i.toNat).map digitByte := by
  unfold FormatInt
  rw [if_neg (by omega)]

theorem ParseIntGo_FormatInt {base : Nat} (hb : 2 ≤ base) (hb36 : base ≤ 36) {i : Int}
    (h0 : 0 ≤ i) (h1 : i < 2 ^ 63) : ParseIntGo base (FormatInt base i) = .ok i := by
  rw [FormatInt_of_nonneg h0]
  obtain ⟨d0, tl, hds⟩ := List.exists_cons_of_ne_nil (natDigitsBE_ne_nil hb i.toNat)
  have hlt : ∀ d ∈ natDigitsBE base i.toNat, d < base := natDigitsBE_lt hb i.toNat
  have hval : ofDigitsBE base 0 (natDigitsBE base i.toNat) = i.toNat :=
    ofDigitsBE_natDigitsBE hb i.toNat
  have hloop := parseUintLoop_ok (2 ^ 64 - 1) hb hb36 (natDigitsBE base i.toNat) 0 hlt
    (by rw [hval]; omega)
  rw [hval] at hloop
  have hd0 : d0 < base := by
    rw [hds] at hlt
    exact hlt d0 (List.mem_cons_self d0 tl)
  have hne45 : digitByte d0 ≠ 45 := digitByte_ne_minus d0 (by omega)
  have hne43 : digitByte d0 ≠ 43 := digitByte_ne_plus d0 (by omega)
  rw [hds] at hloop ⊢
  simp only [List.map_cons] at hloop ⊢
  simp only [ParseIntGo]
  rw [if_neg (by rintro (h | h) <;> [exact hne43 h; exact hne45 h])]
  unfold ParseUintGo
  rw [if_neg (by simp)]
  rw [hloop]
  dsimp only
  rw [if_neg (by rintro ⟨-, hge⟩; omega), if_neg (by rintro ⟨h45, -⟩; exact hne45 h45),
    if_neg hne45]
  congr 1
  omega

/-! ### Base32 / Base58 -/

set_option maxRecDepth 40000 in
theorem decode32_encode32 : ∀ d : Nat, d < 32 →
    decodeBase32Map.getD (encodeBase32Map.getD d 0) 0 = d := by decide

set_option maxRecDepth 40000 in
theorem decode58_encode58 : ∀ d : Nat, d < 58 →
    decodeBase58Map.getD (encodeBase58Map.getD d 0) 0 = d := by decide

theorem base32LEAux_eq : ∀ fuel n : Nat, n ≤ fuel →
    base32LEAux fuel n = ((natDigitsBE 32 n).map (fun d => encodeBase32Map.getD d 0)).reverse := by
  intro fuel
  induction fuel with
  | zero =>
    intro n h
    have hn : n = 0 := by omega
    subst hn
    rw [natDigitsBE_eq (by norm_num)]
    simp [base32LEAux]
  | succ fuel ih =>
    intro n h
    rw [natDigitsBE_eq (by norm_num)]
    simp only [base32LEAux]
    by_cases hn : n < 32
    · simp [hn]
    · simp only [hn, if_false]
      rw [ih (n / 32) (by omega)]
      simp

theorem IDBase32_eq_digits {f : Int} (h : 0 ≤ f) :
    IDBase32 f = (natDigitsBE 32 f.toNat).map (fun d => encodeBase32Map.getD d 0) := by
  unfold IDBase32
  by_cases hf : f < 32
  · rw [if_pos hf, natDigitsBE_eq (by norm_num), if_pos (by omega)]
    simp
  · rw [if_neg hf, base32LEAux_eq f.toNat f.toNat le_rfl, List.reverse_reverse]

theorem base58LEAux_eq : ∀ fuel n : Nat, n ≤ fuel →
    base58LEAux fuel n = ((natDigitsBE 58 n).map (fun d => encodeBase58Map.getD d 0)).reverse := by
  intro fuel
  induction fuel with
  | zero =>
    intro n h
    have hn : n = 0 := by omega
    subst hn
    rw [natDigitsBE_eq (by norm_num)]
    simp [base58LEAux]
  | succ fuel ih =>
    intro n h
    rw [natDigitsBE_eq (by norm_num)]
    simp only [base58LEAux]
    by_cases hn : n < 58
    · simp [hn]
    · simp only [hn, if_false]
      rw [ih (n / 58) (by omega)]
      simp

theorem IDBase58_eq_digits {f : Int} (h : 0 ≤ f) :
    IDBase58 f = (natDigitsBE 58 f.toNat).map (fun d => encodeBase58Map.getD d 0) := by
  unfold IDBase58
  by_cases hf : f < 58
  · rw [if_pos hf, natDigitsBE_eq (by norm_num), if_pos (by omega)]
    simp
  · rw [if_neg hf, base58LEAux_eq f.toNat f.toNat le_rfl, List.reverse_reverse]

theorem le_ofDigitsBEInt {b : Nat} (hb : 1 ≤ b) (acc : Int) (h : 0 ≤ acc) (ds : List Nat) :
    acc ≤ ofDigitsBEInt b acc ds := by
  induction ds generalizing acc with
  | nil => simp [ofDigitsBEInt]
  | cons d tl ih =>
    show acc ≤ ofDigitsBEInt b (acc * b + d) tl
    have h1 : acc ≤ acc * b + d := by
      have : acc * 1 ≤ acc * b := by
        apply mul_le_mul_of_nonneg_left _ h
        exact_mod_cast hb
      have hd : (0 : Int) ≤ (d : Int) := by positivity
      omega
    exact le_trans h1 (ih _ (by omega))

theorem ofDigitsBEInt_cast (b : Nat) (acc : Nat) (ds : List Nat) :
    ofDigitsBEInt b (acc : Int) ds = ((ofDigitsBE b acc ds : Nat) : Int) := by
  induction ds generalizing acc with
  | nil => rfl
  | cons d tl ih =>
    show ofDigitsBEInt b ((acc : Int) * b + d) tl = ((ofDigitsBE b (acc * b + d) tl : Nat) : Int)
    have hcast : ((acc : Int) * b + d) = (((acc * b + d : Nat)) : Int) := by push_cast; ring
    rw [hcast, ih]

theorem parseBase32Loop_ok : ∀ (ds : List Nat) (acc : Int), (∀ d ∈ ds, d < 32) → 0 ≤ acc →
    ofDigitsBEInt 32 acc ds < 2 ^ 63 →
    parseBase32Loop acc (ds.map (fun d => encodeBase32Map.getD d 0)) =
      .ok (ofDigitsBEInt 32 acc ds) := by
  intro ds
  induction ds with
  | nil => intro acc _ _ _; rfl
  | cons d tl ih =>
    intro acc hds hacc hlt
    have hd : d < 32 := hds d (List.mem_cons_self d tl)
    have hdec := decode32_encode32 d hd
    have hstep : ofDigitsBEInt 32 acc (d :: tl) = ofDigitsBEInt 32 (acc * 32 + d) tl := rfl
    rw [hstep] at hlt ⊢
    have hacc2 : (0 : Int) ≤ acc * 32 + d := by positivity
    have hmono : acc * 32 + d < 2 ^ 63 :=
      lt_of_le_of_lt (le_ofDigitsBEInt (by norm_num) _ hacc2 tl) hlt
    simp only [List.map_cons, parseBase32Loop, hdec]
    rw [if_neg (by omega), wrap64_eq_of_lt hacc2 hmono]
    exact ih (acc * 32 + d) (fun x hx => hds x (List.mem_cons_of_mem d hx)) hacc2 hlt

theorem parseBase58Loop_ok : ∀ (ds : List Nat) (acc : Int), (∀ d ∈ ds, d < 58) → 0 ≤ acc →
    ofDigitsBEInt 58 acc ds < 2 ^ 63 →
    parseBase58Loop acc (ds.map (fun d => encodeBase58Map.getD d 0)) =
      .ok (ofDigitsBEInt 58 acc ds) := by
  intro ds
  induction ds with
  | nil => intro acc _ _ _; rfl
  | cons d tl ih =>
    intro acc hds hacc hlt
    have hd : d < 58 := hds d (List.mem_cons_self d tl)
    have hdec := decode58_encode58 d hd
    have hstep : ofDigitsBEInt 58 acc (d :: tl) = ofDigitsBEInt 58 (acc * 58 + d) tl := rfl
    rw [hstep] at hlt ⊢
    have hacc2 : (0 : Int) ≤ acc * 58 + d := by positivity
    have hmono : acc * 58 + d < 2 ^ 63 :=
      lt_of_le_of_lt (le_ofDigitsBEInt (by norm_num) _ hacc2 tl) hlt
    simp only [List.map_cons, parseBase58Loop, hdec]
    rw [if_neg (by omega), wrap64_eq_of_lt hacc2 hmono]
    exact ih (acc * 58 + d) (fun x hx => hds x (List.mem_cons_of_mem d hx)) hacc2 hlt

theorem ParseBase32_IDBase32 {f : Int} (h0 : 0 ≤ f) (h1 : f < 2 ^ 63) :
    ParseBase32 (IDBase32 f) = .ok f := by
  rw [IDBase32_eq_digits h0]
  unfold ParseBase32
  have hds := natDigitsBE_lt (b := 32) (by norm_num) f.toNat
  have hv : ofDigitsBEInt 32 (0 : Int) (natDigitsBE 32 f.toNat) = f := by
    rw [show ((0 : Int)) = ((0 : Nat) : Int) by norm_num, ofDigitsBEInt_cast,
      ofDigitsBE_natDigitsBE (by norm_num), Int.toNat_of_nonneg h0]
  rw [parseBase32Loop_ok (natDigitsBE 32 f.toNat) 0 hds le_rfl (by rw [hv]; omega), hv]

theorem ParseBase58_IDBase58 {f : Int} (h0 : 0 ≤ f) (h1 : f < 2 ^ 63) :
    ParseBase58 (IDBase58 f) = .ok f := by
  rw [IDBase58_eq_digits h0]
  unfold ParseBase58
  have hds := natDigitsBE_lt (b := 58) (by norm_num) f.toNat
  have hv : ofDigitsBEInt 58 (0 : Int) (natDigitsBE 58 f.toNat) = f := by
    rw [show ((0 : Int)) = ((0 : Nat) : Int) by norm_num, ofDigitsBEInt_cast,
      ofDigitsBE_natDigitsBE (by norm_num), Int.toNat_of_nonneg h0]
  rw [parseBase58Loop_ok (natDigitsBE 58 f.toNat) 0 hds le_rfl (by rw [hv]; omega), hv]

/-! ### Base64 -/

theorem b64Val_b64Byte : ∀ d : Nat, d < 64 → b64Val (b64Byte d) = some d := by decide

theorem b64Byte_ne_61 : ∀ d : Nat, d < 64 → b64Byte d ≠ 61 := by decide

theorem b64decode_b64encode : ∀ bs : List Nat, (∀ x ∈ bs, x < 256) →
    b64decode (b64encode bs) = .ok bs
  | [], _ => rfl
  | [a], h => by
    have ha : a < 256 := h a (by simp)
    simp only [b64encode, b64decode, b64Val_b64Byte (a / 4) (by omega),
      b64Val_b64Byte (a % 4 * 16) (by omega)]
    simp only [and_self, if_true, Except.ok.injEq, List.cons.injEq, and_true]
    omega
  | [a, b], h => by
    have ha : a < 256 := h a (by simp)
    have hb : b < 256 := h b (by simp)
    simp only [b64encode, b64decode, b64Val_b64Byte (a / 4) (by omega),
      b64Val_b64Byte (a % 4 * 16 + b / 16) (by omega),
      b64Val_b64Byte (b % 16 * 4) (by omega)]
    rw [if_neg (b64Byte_ne_61 (b % 16 * 4) (by omega))]
    simp only [if_true, Except.ok.injEq, List.cons.injEq, and_true]
    omega
  | a :: b :: c :: rest, h => by
    have ha : a < 256 := h a (by simp)
    have hb : b < 256 := h b (by simp)
    have hc : c < 256 := h c (by simp)
    have hrest : ∀ x ∈ rest, x < 256 := fun x hx => h x (by simp [hx])
    have ih := b64decode_b64encode rest hrest
    simp only [b64encode, b64decode, b64Val_b64Byte (a / 4) (by omega),
      b64Val_b64Byte (a % 4 * 16 + b / 16) (by omega),
      b64Val_b64Byte (b % 16 * 4 + c / 64) (by omega),
      b64Val_b64Byte (c % 64) (by omega)]
    rw [if_neg (b64Byte_ne_61 (b % 16 * 4 + c / 64) (by omega)),
      if_neg (b64Byte_ne_61 (c % 64) (by omega)), ih]
    simp only [Except.ok.injEq, List.cons.injEq, and_true, true_and]
    omega

/-! ### IntBytes and JSON -/

theorem ParseIntBytes_IDIntBytes {f : Int} (h0 : 0 ≤ f) (h1 : f < 2 ^ 63) :
    ParseIntBytes (IDIntBytes f) = f := by
  unfold IDIntBytes ParseIntBytes
  rw [toUint64_eq_toNat h0 (by omega)]
  simp only [List.foldl_cons, List.foldl_nil]
  have hn : f.toNat < 2 ^ 63 := by omega
  have e56 : (2 : Nat) ^ 56 = 72057594037927936 := by norm_num
  have e48 : (2 : Nat) ^ 48 = 281474976710656 := by norm_num
  have e40 : (2 : Nat) ^ 40 = 1099511627776 := by norm_num
  have e32 : (2 : Nat) ^ 32 = 4294967296 := by norm_num
  have e24 : (2 : Nat) ^ 24 = 16777216 := by norm_num
  have e16 : (2 : Nat) ^ 16 = 65536 := by norm_num
  have e8 : (2 : Nat) ^ 8 = 256 := by norm_num
  have hval : 0 * 256 + f.toNat / 2 ^ 56 % 256 = f.toNat / 2 ^ 56 % 256 := by ring
  have hfold :
      ((((((((0 * 256 + f.toNat / 2 ^ 56 % 256) * 256 + f.toNat / 2 ^ 48 % 256) * 256 +
        f.toNat / 2 ^ 40 % 256) * 256 + f.toNat / 2 ^ 32 % 256) * 256 +
        f.toNat / 2 ^ 24 % 256) * 256 + f.toNat / 2 ^ 16 % 256) * 256 +
        f.toNat / 2 ^ 8 % 256) * 256 + f.toNat % 256) = f.toNat := by
    rw [e56, e48, e40, e32, e24, e16, e8]
    omega
  rw [hfold, ofUint64_of_lt hn, Int.toNat_of_nonneg h0]

theorem FormatInt_lt_256 {base : Nat} (hb : 2 ≤ base) (hb36 : base ≤ 36) (i : Int) :
    ∀ x ∈ FormatInt base i, x < 256 := by
  intro x hx
  unfold FormatInt at hx
  have hdig : ∀ n : Nat, x ∈ (natDigitsBE base n).map digitByte → x < 256 := by
    intro n hmem
    obtain ⟨d, hd, hdx⟩ := List.mem_map.mp hmem
    have : d < base := natDigitsBE_lt hb n d hd
    subst hdx
    unfold digitByte
    split <;> omega
  by_cases hneg : i < 0
  · rw [if_pos hneg] at hx
    rcases List.mem_cons.mp hx with hx | hx
    · omega
    · exact hdig _ hx
  · rw [if_neg hneg] at hx
    exact hdig _ hx

theorem ParseBase64_IDBase64 {f : Int} (h0 : 0 ≤ f) (h1 : f < 2 ^ 63) :
    ParseBase64 (IDBase64 f) = .ok f := by
  unfold ParseBase64 IDBase64
  rw [b64decode_b64encode (IDBytes f) (FormatInt_lt_256 (by norm_num) (by norm_num) f)]
  exact ParseIntGo_FormatInt (by norm_num) (by norm_num) h0 h1

theorem UnmarshalJSON_MarshalJSON {f : Int} (h0 : 0 ≤ f) (h1 : f < 2 ^ 63) :
    UnmarshalJSON (MarshalJSON f) = .ok f := by
  unfold MarshalJSON UnmarshalJSON
  obtain ⟨d0, tl, hds⟩ := List.exists_cons_of_ne_nil (natDigitsBE_ne_nil (b := 10)
    (by norm_num) f.toNat)
  have hshape : FormatInt 10 f = (natDigitsBE 10 f.toNat).map digitByte := FormatInt_of_nonneg h0
  have hlen : (FormatInt 10 f).length ≥ 1 := by
    rw [hshape, hds]
    simp
  rw [if_neg]
  · have hdrop : (34 :: FormatInt 10 f ++ [34]).drop 1 = FormatInt 10 f ++ [34] := rfl
    rw [hdrop, List.dropLast_concat]
    exact ParseIntGo_FormatInt (by norm_num) (by norm_num) h0 h1
  · push_neg
    refine ⟨by simp; omega, rfl, ?_⟩
    rw [show (34 : Nat) :: FormatInt 10 f ++ [34] = (34 :: FormatInt 10 f) ++ [34] by simp]
    rw [List.getLastD_concat]

/-! ### Decoding the packed ID fields -/

theorem maskOf_small : ∀ t : Nat, t ≤ 22 → lxor64 (-1) (shl64 (-1) t) = 2 ^ t - 1 := by
  intro t ht
  interval_cases t <;> decide

theorem shl64_natCast (T k : Nat) (h : T * 2 ^ k < 2 ^ 63) :
    shl64 (T : Int) k = ((T * 2 ^ k : Nat) : Int) := by
  rw [shl64_eq_of_lt (by positivity) (by exact_mod_cast h)]
  push_cast
  ring

theorem lor64_natCast (A B : Nat) (hA : A < 2 ^ 63) (hB : B < 2 ^ 63) :
    lor64 (A : Int) (B : Int) = ((A ||| B : Nat) : Int) := by
  rw [lor64_eq_nat (by positivity) (by exact_mod_cast hA) (by positivity) (by exact_mod_cast hB)]
  simp

theorem land64_natCast (A B : Nat) (hA : A < 2 ^ 63) (hB : B < 2 ^ 63) :
    land64 (A : Int) (B : Int) = ((A &&& B : Nat) : Int) := by
  rw [land64_eq_nat (by positivity) (by exact_mod_cast hA) (by positivity) (by exact_mod_cast hB)]
  simp

theorem shr64_natCast (A k : Nat) : shr64 (A : Int) k = ((A / 2 ^ k : Nat) : Int) := by
  unfold shr64
  norm_cast

theorem assembleID_eq {nb sb : Nat} (hsum : nb + sb ≤ 22) {node time seq : Int}
    (hn0 : 0 ≤ node) (hn1 : node < 2 ^ nb) (ht0 : 0 ≤ time) (ht1 : time < 2 ^ (63 - nb - sb))
    (hq0 : 0 ≤ seq) (hq1 : seq < 2 ^ sb) :
    assembleID nb sb node time seq = time * 2 ^ (nb + sb) + node * 2 ^ sb + seq := by
  lift time to Nat using ht0 with T
  lift node to Nat using hn0 with N
  lift seq to Nat using hq0 with Q
  have hT : T < 2 ^ (63 - nb - sb) := by exact_mod_cast ht1
  have hN : N < 2 ^ nb := by exact_mod_cast hn1
  have hQ : Q < 2 ^ sb := by exact_mod_cast hq1
  have hpow : (2 : Nat) ^ (63 - nb - sb) * 2 ^ (nb + sb) = 2 ^ 63 := by
    rw [← pow_add]
    congr 1
    omega
  have hTb : T * 2 ^ (nb + sb) < 2 ^ 63 := by
    calc T * 2 ^ (nb + sb) < 2 ^ (63 - nb - sb) * 2 ^ (nb + sb) :=
          (Nat.mul_lt_mul_right (show 0 < 2 ^ (nb + sb) by positivity)).mpr hT
      _ = 2 ^ 63 := hpow
  have hNb : N * 2 ^ sb < 2 ^ (nb + sb) := by
    calc N * 2 ^ sb < 2 ^ nb * 2 ^ sb :=
          (Nat.mul_lt_mul_right (show 0 < 2 ^ sb by positivity)).mpr hN
      _ = 2 ^ (nb + sb) := by rw [← pow_add]
  have h22 : (2 : Nat) ^ (nb + sb) ≤ 2 ^ 63 := Nat.pow_le_pow_right (by norm_num) (by omega)
  unfold assembleID
  rw [Nat.mod_eq_of_lt (by omega : nb + sb < 256)]
  rw [shl64_natCast T (nb + sb) hTb, shl64_natCast N sb (by omega)]
  rw [lor64_natCast _ _ hTb (by omega)]
  have hlor1 : T * 2 ^ (nb + sb) ||| N * 2 ^ sb = T * 2 ^ (nb + sb) + N * 2 ^ sb := by
    rw [Nat.mul_comm T]
    exact lor_two_pow_mul_add hNb
  rw [hlor1]
  have hfact : T * 2 ^ (nb + sb) + N * 2 ^ sb = 2 ^ sb * (2 ^ nb * T + N) := by
    rw [pow_add]
    ring
  have hsum63 : T * 2 ^ (nb + sb) + N * 2 ^ sb + Q < 2 ^ 63 := by
    have hTle : T * 2 ^ (nb + sb) ≤ 2 ^ 63 - 2 ^ (nb + sb) := by
      have hTle1 : T ≤ 2 ^ (63 - nb - sb) - 1 := by omega
      calc T * 2 ^ (nb + sb) ≤ (2 ^ (63 - nb - sb) - 1) * 2 ^ (nb + sb) :=
            Nat.mul_le_mul_right _ hTle1
        _ = 2 ^ (63 - nb - sb) * 2 ^ (nb + sb) - 2 ^ (nb + sb) := by
            rw [Nat.sub_mul, Nat.one_mul]
        _ = 2 ^ 63 - 2 ^ (nb + sb) := by rw [hpow]
    have hNle : N * 2 ^ sb ≤ (2 ^ nb - 1) * 2 ^ sb := Nat.mul_le_mul_right _ (by omega)
    have hNeq : ((2 : Nat) ^ nb - 1) * 2 ^ sb = 2 ^ (nb + sb) - 2 ^ sb := by
      rw [Nat.sub_mul, Nat.one_mul, ← pow_add]
    have hsb : (2 : Nat) ^ sb ≤ 2 ^ (nb + sb) := Nat.pow_le_pow_right (by norm_num) (by omega)
    omega
  rw [lor64_natCast _ _ (by omega) (by omega)]
  have hlor2 : T * 2 ^ (nb + sb) + N * 2 ^ sb ||| Q =
      T * 2 ^ (nb + sb) + N * 2 ^ sb + Q := by
    rw [hfact]
    exact lor_two_pow_mul_add hQ
  rw [hlor2]
  push_cast
  ring

theorem decode_time_nat {nb sb : Nat} {T N Q : Nat}
    (hN : N < 2 ^ nb) (hQ : Q < 2 ^ sb) :
    (T * 2 ^ (nb + sb) + N * 2 ^ sb + Q) / 2 ^ (nb + sb) = T := by
  have hmid : N * 2 ^ sb + Q < 2 ^ (nb + sb) := by
    have h1 : N * 2 ^ sb ≤ (2 ^ nb - 1) * 2 ^ sb := Nat.mul_le_mul_right _ (by omega)
    have h2 : ((2 : Nat) ^ nb - 1) * 2 ^ sb = 2 ^ (nb + sb) - 2 ^ sb := by
      rw [Nat.sub_mul, Nat.one_mul, ← pow_add]
    have h3 : (2 : Nat) ^ sb ≤ 2 ^ (nb + sb) := Nat.pow_le_pow_right (by norm_num) (by omega)
    omega
  rw [Nat.add_assoc, Nat.mul_comm T, Nat.mul_add_div (by positivity),
    Nat.div_eq_of_lt hmid, Nat.add_zero]

theorem decode_node_nat {nb sb : Nat} {T N Q : Nat} (hN : N < 2 ^ nb) (hQ : Q < 2 ^ sb) :
    (T * 2 ^ (nb + sb) + N * 2 ^ sb + Q) &&& (2 ^ nb - 1) * 2 ^ sb = N * 2 ^ sb := by
  have hfact : T * 2 ^ (nb + sb) + N * 2 ^ sb + Q = 2 ^ sb * (2 ^ nb * T + N) + Q := by
    rw [pow_add]
    ring
  rw [hfact, land_middle_mask hQ, Nat.mul_add_mod, Nat.mod_eq_of_lt hN]

theorem two_pow_sub_one_cast (t : Nat) : (((2 ^ t - 1 : Nat)) : Int) = 2 ^ t - 1 := by
  have h1 : (1 : Nat) ≤ 2 ^ t := Nat.one_le_two_pow
  push_cast [h1]
  ring

theorem wrap64_eq_of_range {x : Int} (h0 : -(2 ^ 63) ≤ x) (h1 : x < 2 ^ 63) :
    wrap64 x = x := by
  unfold wrap64 toUint64 ofUint64
  split <;> omega

/-- C6 counterexample: the claim fails at the `int64`-valid epoch
`startTime = 2^63 - 1` with bit widths 1/1, elapsed 5, node 1,
sequence 1 — all within the claim's ranges: `ID.Time`'s final addition
is `int64` arithmetic, so it returns the wrapped value `-2^63 + 4`
instead of `startTime + elapsed = 2^63 + 4`. -/
theorem c6_counterexample :
    (1 : Nat) + 1 ≤ 22 ∧
    (0 ≤ (5 : Int) ∧ (5 : Int) ≤ 2 ^ (63 - 1 - 1) - 1) ∧
    (0 ≤ (1 : Int) ∧ (1 : Int) ≤ 2 ^ 1 - 1) ∧
    IDTime [StartTime (2 ^ 63 - 1), NodeBits 1, SeqBits 1] (assembleID 1 1 1 5 1)
      = -(2 ^ 63) + 4 ∧
    IDTime [StartTime (2 ^ 63 - 1), NodeBits 1, SeqBits 1] (assembleID 1 1 1 5 1)
      ≠ (2 ^ 63 - 1) + 5 := by decide

/-- C6 amended: with any configuration whose bit widths sum to at most
22, the accessors `ID.Node` and `ID.Seq` run with that same configuration
recover exactly the node and the sequence from the assembled ID
`(elapsed << (nodeBits+seqBits)) | (node << seqBits) | seq`, for every
in-range elapsed, node and sequence value; `ID.Time` recovers exactly
`startTime + elapsed` provided that sum fits in `int64` (its final
addition is `int64` arithmetic and wraps otherwise, see the
counterexample). -/
theorem c6_decode_fields {nb sb : Nat} {st elapsed node seq : Int} (hsum : nb + sb ≤ 22)
    (hst : -(2 ^ 63) ≤ st) (hov : st + elapsed < 2 ^ 63)
    (he0 : 0 ≤ elapsed) (he1 : elapsed ≤ 2 ^ (63 - nb - sb) - 1)
    (hn0 : 0 ≤ node) (hn1 : node ≤ 2 ^ nb - 1)
    (hq0 : 0 ≤ seq) (hq1 : seq ≤ 2 ^ sb - 1) :
    IDTime [StartTime st, NodeBits nb, SeqBits sb] (assembleID nb sb node elapsed seq)
        = st + elapsed ∧
    IDNode [StartTime st, NodeBits nb, SeqBits sb] (assembleID nb sb node elapsed seq) = node ∧
    IDSeq [StartTime st, NodeBits nb, SeqBits sb] (assembleID nb sb node elapsed seq) = seq := by
  have he1' : elapsed < 2 ^ (63 - nb - sb) := by omega
  have hn1' : node < 2 ^ nb := by omega
  have hq1' : seq < 2 ^ sb := by omega
  rw [assembleID_eq hsum hn0 hn1' he0 he1' hq0 hq1']
  lift elapsed to Nat using he0 with T
  lift node to Nat using hn0 with N
  lift seq to Nat using hq0 with Q
  have hT : T < 2 ^ (63 - nb - sb) := by exact_mod_cast he1'
  have hN : N < 2 ^ nb := by exact_mod_cast hn1'
  have hQ : Q < 2 ^ sb := by exact_mod_cast hq1'
  have hF : (T : Int) * 2 ^ (nb + sb) + (N : Int) * 2 ^ sb + (Q : Int)
      = ((T * 2 ^ (nb + sb) + N * 2 ^ sb + Q : Nat) : Int) := by
    push_cast
    ring
  set F : Nat := T * 2 ^ (nb + sb) + N * 2 ^ sb + Q with hFdef
  have hpow : (2 : Nat) ^ (63 - nb - sb) * 2 ^ (nb + sb) = 2 ^ 63 := by
    rw [← pow_add]
    congr 1
    omega
  have hF63 : F < 2 ^ 63 := by
    have hTle : T * 2 ^ (nb + sb) ≤ 2 ^ 63 - 2 ^ (nb + sb) := by
      have hTle1 : T ≤ 2 ^ (63 - nb - sb) - 1 := by omega
      calc T * 2 ^ (nb + sb) ≤ (2 ^ (63 - nb - sb) - 1) * 2 ^ (nb + sb) :=
            Nat.mul_le_mul_right _ hTle1
        _ = 2 ^ (63 - nb - sb) * 2 ^ (nb + sb) - 2 ^ (nb + sb) := by
            rw [Nat.sub_mul, Nat.one_mul]
        _ = 2 ^ 63 - 2 ^ (nb + sb) := by rw [hpow]
    have hNle : N * 2 ^ sb ≤ (2 ^ nb - 1) * 2 ^ sb := Nat.mul_le_mul_right _ (by omega)
    have hNeq : ((2 : Nat) ^ nb - 1) * 2 ^ sb = 2 ^ (nb + sb) - 2 ^ sb := by
      rw [Nat.sub_mul, Nat.one_mul, ← pow_add]
    have hsb : (2 : Nat) ^ sb ≤ 2 ^ (nb + sb) := Nat.pow_le_pow_right (by norm_num) (by omega)
    have h22 : (2 : Nat) ^ (nb + sb) ≤ 2 ^ 63 := Nat.pow_le_pow_right (by norm_num) (by omega)
    omega
  have hmask63 : ((2 : Nat) ^ nb - 1) * 2 ^ sb < 2 ^ 63 := by
    have hNeq : ((2 : Nat) ^ nb - 1) * 2 ^ sb = 2 ^ (nb + sb) - 2 ^ sb := by
      rw [Nat.sub_mul, Nat.one_mul, ← pow_add]
    have h22 : (2 : Nat) ^ (nb + sb) ≤ 2 ^ 63 := Nat.pow_le_pow_right (by norm_num) (by omega)
    have hsb0 : (0 : Nat) < 2 ^ sb := by positivity
    omega
  have hnb256 : nb % 256 = nb := Nat.mod_eq_of_lt (by omega)
  have hsb256 : sb % 256 = sb := Nat.mod_eq_of_lt (by omega)
  have hsb63 : (2 : Nat) ^ sb ≤ 2 ^ 63 := Nat.pow_le_pow_right (by norm_num) (by omega)
  refine ⟨?_, ?_, ?_⟩
  · simp only [IDTime, List.foldl_cons, List.foldl_nil, StartTime, NodeBits, SeqBits,
      defaultOptions, hnb256, hsb256]
    rw [Nat.mod_eq_of_lt (by omega : nb + sb < 256), hF, shr64_natCast,
      decode_time_nat hN hQ, wrap64_eq_of_range (by omega) (by omega)]
    ring
  · simp only [IDNode, List.foldl_cons, List.foldl_nil, StartTime, NodeBits, SeqBits,
      defaultOptions, hnb256, hsb256]
    rw [maskOf_small nb (by omega), ← two_pow_sub_one_cast nb,
      shl64_natCast _ _ (by omega), hF, land64_natCast _ _ hF63 (by omega),
      decode_node_nat hN hQ, shr64_natCast,
      Nat.mul_div_cancel N (show 0 < 2 ^ sb by positivity)]
  · simp only [IDSeq, List.foldl_cons, List.foldl_nil, StartTime, NodeBits, SeqBits,
      defaultOptions, hnb256, hsb256]
    rw [maskOf_small sb (by omega), ← two_pow_sub_one_cast sb, hF,
      land64_natCast _ _ hF63 (by omega : ((2 : Nat) ^ sb - 1) < 2 ^ 63),
      Nat.and_pow_two_sub_one_eq_mod]
    have hFfact : F = 2 ^ sb * (T * 2 ^ nb + N) + Q := by
      rw [hFdef, pow_add]
      ring
    rw [hFfact, Nat.mul_add_mod, Nat.mod_eq_of_lt hQ]

/-! ### Claim theorems -/

/-- C1 (code-bug evidence): on a generator built by `New` with
`nodeBits = 1`, `seqBits = 1`, `node = 1`, three `ID()` calls whose clock
readings all show elapsed time 1 return the IDs 6, 7, 6: the first and
third calls return the same ID, so the IDs produced by one instance are
not pairwise distinct.  The sequence wraps to 0 on the third call and the
spin loop cannot run, because its guard `sf.time > elapsedTime` is
already false when it is reached. -/
theorem c1_duplicate_id_eval :
    runNew [Node 1, NodeBits 1, SeqBits 1] emptyEnv DefaultStartTime
      [(1, []), (1, []), (1, [])] = some [6, 7, 6] ∧
    ¬ ([6, 7, 6] : List Int).Nodup := by decide

/-- C2 (code-bug evidence): on the same generator, after two calls in
millisecond 1 the state is `time = 1, seq = 1`; the third call again
reads elapsed time 1, wraps the sequence to 0, and although later clock
readings 2 and 3 are available to the spin loop, the call does not wait:
it returns ID 6, whose sequence field is 0 but whose timestamp field
equals the previous ID's timestamp field instead of exceeding it. -/
theorem c2_no_busy_wait_eval :
    runNew [Node 1, NodeBits 1, SeqBits 1] emptyEnv DefaultStartTime
      [(1, []), (1, []), (1, [2, 3])] = some [6, 7, 6] ∧
    IDSeq [NodeBits 1, SeqBits 1] 6 = 0 ∧
    IDTime [NodeBits 1, SeqBits 1] 6 = IDTime [NodeBits 1, SeqBits 1] 7 := by decide

/-- C3 (code-bug evidence): with the non-decreasing clock readings
1, 1, 1 the same generator returns 6, 7, 6, which is not strictly
increasing (the third ID equals the first and is below the second). -/
theorem c3_not_monotone_eval :
    List.Pairwise (· ≤ ·) [(1 : Int), 1, 1] ∧
    runNew [Node 1, NodeBits 1, SeqBits 1] emptyEnv DefaultStartTime
      [(1, []), (1, []), (1, [])] = some [6, 7, 6] ∧
    ¬ List.Pairwise (· < ·) ([6, 7, 6] : List Int) := by decide

set_option maxRecDepth 40000 in
/-- C4 (code-bug evidence): byte 65 (`'A'`) is outside the Base32
alphabet and byte 108 (`'l'`) is outside the Base58 alphabet, yet
`ParseBase32 [65]` and `ParseBase58 [108]` return ID 0 with no error:
`init()` marks only table indices `0..31` resp. `0..57` as invalid, so
any byte at or above that bound that is not an alphabet byte decodes as
digit 0.  A non-alphabet byte below the bound, such as 7, is rejected. -/
theorem c4_invalid_bytes_accepted_eval :
    (65 : Nat) ∉ encodeBase32Map ∧ ParseBase32 [65] = .ok 0 ∧
    (108 : Nat) ∉ encodeBase58Map ∧ ParseBase58 [108] = .ok 0 ∧
    ParseBase32 [7] = .error .invalidBase32 := by decide

/-- C5: on `[0, 2^63)` every parse function is the exact left-inverse of
the corresponding encoder, with no error: decimal string, base 2, the
custom base 32, base 36, the custom base 58, base 64 of the decimal
bytes, decimal bytes, big-endian 8-byte array, and JSON. -/
theorem c5_codec_roundtrip (id : Int) (h0 : 0 ≤ id) (h1 : id < 2 ^ 63) :
    ParseString (IDString id) = .ok id ∧
    ParseBase2 (IDBase2 id) = .ok id ∧
    ParseBase32 (IDBase32 id) = .ok id ∧
    ParseBase36 (IDBase36 id) = .ok id ∧
    ParseBase58 (IDBase58 id) = .ok id ∧
    ParseBase64 (IDBase64 id) = .ok id ∧
    ParseBytes (IDBytes id) = .ok id ∧
    ParseIntBytes (IDIntBytes id) = id ∧
    UnmarshalJSON (MarshalJSON id) = .ok id :=
  ⟨ParseIntGo_FormatInt (by norm_num) (by norm_num) h0 h1,
   ParseIntGo_FormatInt (by norm_num) (by norm_num) h0 h1,
   ParseBase32_IDBase32 h0 h1,
   ParseIntGo_FormatInt (by norm_num) (by norm_num) h0 h1,
   ParseBase58_IDBase58 h0 h1,
   ParseBase64_IDBase64 h0 h1,
   ParseIntGo_FormatInt (by norm_num) (by norm_num) h0 h1,
   ParseIntBytes_IDIntBytes h0 h1,
   UnmarshalJSON_MarshalJSON h0 h1⟩

/-- Witness for C5 at the concrete ID 13587. -/
theorem c5_codec_roundtrip_witness :
    0 ≤ (13587 : Int) ∧ (13587 : Int) < 2 ^ 63 ∧
    (ParseString (IDString 13587) = .ok 13587 ∧
     ParseBase2 (IDBase2 13587) = .ok 13587 ∧
     ParseBase32 (IDBase32 13587) = .ok 13587 ∧
     ParseBase36 (IDBase36 13587) = .ok 13587 ∧
     ParseBase58 (IDBase58 13587) = .ok 13587 ∧
     ParseBase64 (IDBase64 13587) = .ok 13587 ∧
     ParseBytes (IDBytes 13587) = .ok 13587 ∧
     ParseIntBytes (IDIntBytes 13587) = 13587 ∧
     UnmarshalJSON (MarshalJSON 13587) = .ok 13587) :=
  ⟨by norm_num, by norm_num, c5_codec_roundtrip 13587 (by norm_num) (by norm_num)⟩

/-- Witness for C6 with the default layout 10/12, start time 3,
elapsed 7, node 5, sequence 9. -/
theorem c6_decode_fields_witness :
    ((10 : Nat) + 12 ≤ 22 ∧ -(2 ^ 63) ≤ (3 : Int) ∧ (3 : Int) + 7 < 2 ^ 63 ∧
      0 ≤ (7 : Int) ∧ (7 : Int) ≤ 2 ^ (63 - 10 - 12) - 1 ∧
      0 ≤ (5 : Int) ∧ (5 : Int) ≤ 2 ^ 10 - 1 ∧ 0 ≤ (9 : Int) ∧ (9 : Int) ≤ 2 ^ 12 - 1) ∧
    (IDTime [StartTime 3, NodeBits 10, SeqBits 12] (assembleID 10 12 5 7 9) = 3 + 7 ∧
     IDNode [StartTime 3, NodeBits 10, SeqBits 12] (assembleID 10 12 5 7 9) = 5 ∧
     IDSeq [StartTime 3, NodeBits 10, SeqBits 12] (assembleID 10 12 5 7 9) = 9) :=
  ⟨⟨by norm_num, by norm_num, by norm_num, by norm_num, by norm_num, by norm_num, by norm_num,
     by norm_num, by norm_num⟩,
   c6_decode_fields (by norm_num) (by norm_num) (by norm_num) (by norm_num) (by norm_num)
     (by norm_num) (by norm_num) (by norm_num) (by norm_num)⟩

/-- C7 counterexample: the explicitly supplied non-zero bit widths 63 and
193 sum to 256 > 22, yet `New` succeeds and returns a generator: the
check compares the `uint8` sum `NotTimeBits`, and 256 wraps to 0. -/
theorem c7_counterexample :
    (63 : Nat) ≠ 0 ∧ (193 : Nat) ≠ 0 ∧ 63 + 193 > 22 ∧
    (New [Node 5, NodeBits 63, SeqBits 193] emptyEnv DefaultStartTime).isOk = true := by
  decide

/-- C7 amended: `New`'s width check compares the `uint8` sum
`(nodeBits + seqBits) mod 256` against 22.  For explicitly supplied
non-zero widths (below 256, as `uint8` values are), `New` fails with the
width error exactly when the wrapped sum exceeds 22; when the wrapped sum
is at most 22 the width check does not fail — in particular widths such
as 63 and 193, whose true sum 256 > 22 wraps to 0, pass the check. -/
theorem c7_amended (nb sb : Nat) (st node nowMs : Int) (ext : ExtEnv)
    (hnb : nb ≠ 0) (hsb : sb ≠ 0) (hnb2 : nb < 256) (hsb2 : sb < 256) :
    ((nb + sb) % 256 > 22 →
      New [StartTime st, Node node, NodeBits nb, SeqBits sb] ext nowMs
        = .error .layoutTooWide) ∧
    ((nb + sb) % 256 ≤ 22 →
      New [StartTime st, Node node, NodeBits nb, SeqBits sb] ext nowMs
        ≠ .error .layoutTooWide) := by
  have hmodnb : nb % 256 = nb := Nat.mod_eq_of_lt hnb2
  have hmodsb : sb % 256 = sb := Nat.mod_eq_of_lt hsb2
  simp only [New, List.foldl_cons, List.foldl_nil, StartTime, Node, NodeBits, SeqBits,
    defaultOptions, initBits, NotTimeBits, MaxNotTimeBits, hmodnb, hmodsb, if_neg hnb,
    if_neg hsb]
  constructor
  · intro h
    rw [if_pos h]
  · intro h
    rw [if_neg (by omega)]
    split
    · simp
    · split
      · simp
      · simp

/-- Witness for C7 amended: widths 30/20 (wrapped sum 50 > 22) fail with
the width error; widths 63/193 (wrapped sum 0 ≤ 22) do not produce the
width error. -/
theorem c7_amended_witness :
    New [StartTime 1, Node 0, NodeBits 30, SeqBits 20] emptyEnv 5 = .error .layoutTooWide ∧
    New [StartTime 1, Node 0, NodeBits 63, SeqBits 193] emptyEnv 5 ≠ .error .layoutTooWide :=
  ⟨(c7_amended 30 20 1 0 5 emptyEnv (by norm_num) (by norm_num) (by norm_num)
      (by norm_num)).1 (by norm_num),
   (c7_amended 63 193 1 0 5 emptyEnv (by norm_num) (by norm_num) (by norm_num)
      (by norm_num)).2 (by norm_num)⟩

/-- C8 counterexample: the node id -5 is outside `[0, 2^20 - 1]`, yet with
widths 20/20 `New` fails with the width error, not the node-out-of-range
error, so the claim does not hold without assuming that the earlier
validations pass. -/
theorem c8_counterexample :
    ((-5 : Int) < 0 ∨ (-5 : Int) > 2 ^ 20 - 1) ∧
    New [Node (-5), NodeBits 20, SeqBits 20] emptyEnv DefaultStartTime
      = .error .layoutTooWide ∧
    GoError.layoutTooWide ≠ GoError.nodeOutOfRange := by decide

/-- C8 amended: provided the earlier validations pass (explicit non-zero
widths summing to at most 22, and an explicit non-zero start time not
after the clock and within `int64` range of it, so that the `int64`
subtraction `elapsedTime()` does not wrap), every explicitly supplied
node id outside `[0, 2^nodeBits - 1]` makes `New` return the
node-out-of-range error and no generator, whatever the environment. -/
theorem c8_amended (nb sb : Nat) (st node nowMs : Int) (ext : ExtEnv)
    (hnb : nb ≠ 0) (hsb : sb ≠ 0) (hsum : nb + sb ≤ 22) (hst : st ≠ 0) (hclock : st ≤ nowMs)
    (hdiff : nowMs - st < 2 ^ 63) (hnode : node < 0 ∨ node > 2 ^ nb - 1) :
    New [StartTime st, Node node, NodeBits nb, SeqBits sb] ext nowMs
      = .error .nodeOutOfRange := by
  have hmodnb : nb % 256 = nb := Nat.mod_eq_of_lt (by omega)
  have hmodsb : sb % 256 = sb := Nat.mod_eq_of_lt (by omega)
  have hpos : (0 : Int) < 2 ^ nb := by positivity
  have hnode0 : ¬ node = 0 := by
    rcases hnode with h | h
    · omega
    · omega
  simp only [New, List.foldl_cons, List.foldl_nil, StartTime, Node, NodeBits, SeqBits,
    defaultOptions, initBits, NotTimeBits, MaxNotTimeBits, hmodnb, hmodsb, if_neg hnb,
    if_neg hsb, initStartTime, initNode, if_neg hst, if_neg hnode0]
  rw [if_neg (by omega : ¬ (nb + sb) % 256 > 22),
    wrap64_eq_of_lt (by omega : (0 : Int) ≤ nowMs - st) (by omega : nowMs - st < 2 ^ 63),
    if_neg (by omega : ¬ nowMs - st < 0), maskOf_small nb (by omega)]
  rw [if_pos hnode]

/-- Witness for C8 amended: with the default layout and epoch, the node
id 2000 (above the mask 1023) yields the node-out-of-range error. -/
theorem c8_amended_witness :
    New [StartTime DefaultStartTime, Node 2000, NodeBits 10, SeqBits 12] emptyEnv
      DefaultStartTime = .error .nodeOutOfRange :=
  c8_amended 10 12 DefaultStartTime 2000 DefaultStartTime emptyEnv (by norm_num) (by norm_num)
    (by norm_num) (by decide) (by norm_num) (by norm_num) (by norm_num)

/-- C9 counterexample: `MarshalJSON` of ID 13587 returns the seven bytes
`"13587"` (five digits plus two quote bytes), not nine bytes as the claim
states. -/
theorem c9_counterexample :
    MarshalJSON 13587 = [34, 49, 51, 53, 56, 55, 34] ∧
    (MarshalJSON 13587).length = 7 ∧ (MarshalJSON 13587).length ≠ 9 := by decide

/-- C9 amended: `UnmarshalJSON` rejects every byte slice that is not
wrapped in a pair of quote bytes with a `JSONSyntaxError` carrying
exactly the offending bytes; in particular the unquoted input `1` fails
with that syntax error, the quoted input `"13587"` yields ID 13587, and
`MarshalJSON` of ID 13587 returns the seven (not nine) bytes `"13587"`
including the surrounding quotes. -/
theorem c9_amended :
    (∀ b : List Nat,
      ¬ (2 ≤ b.length ∧ b.headD 0 = 34 ∧ b.getLastD 0 = 34) →
      UnmarshalJSON b = .error (.jsonSyntax b)) ∧
    UnmarshalJSON [49] = .error (.jsonSyntax [49]) ∧
    UnmarshalJSON [34, 49, 51, 53, 56, 55, 34] = .ok 13587 ∧
    MarshalJSON 13587 = [34, 49, 51, 53, 56, 55, 34] := by
  refine ⟨?_, by decide, by decide, by decide⟩
  intro b hb
  unfold UnmarshalJSON
  rw [if_pos]
  by_cases hlen : 2 ≤ b.length
  · by_cases hhead : b.headD 0 = 34
    · have hlast : b.getLastD 0 ≠ 34 := fun hl => hb ⟨hlen, hhead, hl⟩
      right
      right
      exact hlast
    · right
      left
      exact hhead
  · left
    omega

/-- Witness for C9 amended, applying the rejection clause to the
unquoted input `1`. -/
theorem c9_amended_witness :
    ¬ (2 ≤ ([49] : List Nat).length ∧ ([49] : List Nat).headD 0 = 34 ∧
        ([49] : List Nat).getLastD 0 = 34) ∧
    UnmarshalJSON [49] = .error (.jsonSyntax [49]) :=
  ⟨by decide, c9_amended.1 [49] (by decide)⟩

theorem base32LEAux_ne_nil : ∀ fuel n : Nat, base32LEAux fuel n ≠ [] := by
  intro fuel n
  cases fuel with
  | zero => simp [base32LEAux]
  | succ f =>
    simp only [base32LEAux]
    split
    · simp
    · simp

theorem base58LEAux_ne_nil : ∀ fuel n : Nat, base58LEAux fuel n ≠ [] := by
  intro fuel n
  cases fuel with
  | zero => simp [base58LEAux]
  | succ f =>
    simp only [base58LEAux]
    split
    · simp
    · simp

/-- C10: `ParseBase32` and `ParseBase58` both accept the empty byte slice
and return ID 0 with no error, even though no encoder ever produces an
empty output: `ID.Base32` and `ID.Base58` always return at least one
byte, and at ID 0 they return `"y"` (byte 121) and `"1"` (byte 49). -/
theorem c10_empty_input_accepted :
    ParseBase32 [] = .ok 0 ∧ ParseBase58 [] = .ok 0 ∧
    (∀ f : Int, IDBase32 f ≠ []) ∧ (∀ f : Int, IDBase58 f ≠ []) ∧
    IDBase32 0 = [121] ∧ IDBase58 0 = [49] := by
  refine ⟨by decide, by decide, ?_, ?_, by decide, by decide⟩
  · intro f
    unfold IDBase32
    split
    · simp
    · intro h
      exact base32LEAux_ne_nil f.toNat f.toNat (by simpa using List.reverse_eq_nil_iff.mp h)
  · intro f
    unfold IDBase58
    split
    · simp
    · intro h
      exact base58LEAux_ne_nil f.toNat f.toNat (by simpa using List.reverse_eq_nil_iff.mp h)
